import Mathlib

/-
Verification of the prerequisite-tree editing core of the GCS character
sheet editor (package ux, file prereq_panel.go, plus the hit-location
drag-and-drop handler of the body-settings dockable).

The Go code manipulates a tree of prerequisite nodes through pointers:
every node (leaf or nested list) carries a non-owning Parent pointer to
its owning PrereqList, a PrereqList owns an ordered slice Prereqs of
child nodes, and the panel keeps a side table andOrMap from node to the
externally owned connective label widget.  The embedding replaces
pointers by natural-number node identifiers and represents the mutable
heap as a record of total functions over identifiers.  Machine slices
become Lean lists, slices.Insert / slices.Delete / slices.IndexFunc
become List.insertIdx / List.eraseIdx / an explicit first-index search.
-/

/- ===== node kind tags =====
The kind tags mirror model.PrereqType (an enumeration in the model
package, outside the sampled files); only the eight variants named by
the type switch in createPrereqForType matter structurally, so the tags
are embedded as distinguished natural numbers, leaving room for unknown
values exactly as the Go integer-backed enum does. -/

def listPrereqType : Nat := 0

def traitPrereqType : Nat := 1

def attributePrereqType : Nat := 2

def containedQuantityPrereqType : Nat := 3

def containedWeightPrereqType : Nat := 4

def equippedEquipmentPrereqType : Nat := 5

def skillPrereqType : Nat := 6

def spellPrereqType : Nat := 7

/-- Decides whether a kind tag is one of the eight variants handled by
the type switch in createPrereqForType (prereq_panel.go:246-282); any
other value falls into the default branch which logs and returns nil. -/
def knownPrereqType (t : Nat) : Bool :=
  t == listPrereqType || t == traitPrereqType || t == attributePrereqType ||
  t == containedQuantityPrereqType || t == containedWeightPrereqType ||
  t == equippedEquipmentPrereqType || t == skillPrereqType || t == spellPrereqType

/-- Error kinds of the tree-editing core (spec section 7). -/
inductive PrereqErr where
  | RootDeletionForbidden
  | SelfParentingForbidden
  | NotFound
deriving DecidableEq, Repr

/-- Empty connective label, the constant noAndOr of prereq_panel.go:27. -/
def noAndOr : String := ""

/-- State of the prerequisite-tree editor.  Node identifiers stand for
the Go pointers; children is the Prereqs slice of each list node, parent
is the non-owning Parent back-reference, all is the combinator flag of
list nodes, kind is the PrereqType tag, labels is the andOrMap side
table holding the text of the label widget associated with a node (none
when the node has no entry), lastUsed is the package-level variable
lastPrereqTypeUsed, nextId is the allocator for fresh node identities,
and modCount counts MarkModified notifications. -/
@[ext]
structure PState where
  children : Nat → List Nat
  parent : Nat → Option Nat
  all : Nat → Bool
  kind : Nat → Nat
  labels : Nat → Option String
  lastUsed : Nat
  nextId : Nat
  modCount : Nat

/-- Connective text for a node, from andOrText (prereq_panel.go:213-222):
empty when the node has no parent list, when the parent has fewer than
two children, or when the node is the first child; otherwise "and" when
the parent combinator flag All is set and "or" when it is not. -/
def andOrText (s : PState) (pr : Nat) : String :=
  match s.parent pr with
  | none => noAndOr
  | some list =>
    if (s.children list).length < 2 ∨ (s.children list).head? = some pr then noAndOr
    else if s.all list then "and" else "or"

/-- Writing the combinator flag of one list, as the popup bound to
list.All does (addBoolPopup at prereq_panel.go:73). -/
def setAllFlag (s : PState) (l : Nat) (b : Bool) : PState :=
  { s with all := fun m => if m = l then b else s.all m }

/-- One step of adjustAndOr (prereq_panel.go:198-211): when the node has
an entry in the andOrMap side table and the recomputed text differs from
the stored label text, the label text is rewritten; otherwise nothing
changes.  The widget re-insertion at a new column index is pure layout
and is not part of the observable label state. -/
def adjustAndOr (s : PState) (n : Nat) : PState :=
  match s.labels n with
  | none => s
  | some stored =>
    if andOrText s n ≠ stored then
      { s with labels := fun m => if m = n then some (andOrText s n) else s.labels m }
    else s

/-- Folding adjustAndOr over a list of node identifiers, in order. -/
def refreshChildren (s : PState) : List Nat → PState
  | [] => s
  | n :: rest => refreshChildren (adjustAndOr s n) rest

/-- adjustAndOrForList (prereq_panel.go:191-196): recompute the
connective for every direct child of the list. -/
def adjustAndOrForList (s : PState) (l : Nat) : PState :=
  refreshChildren s (s.children l)

/- ===== basic frame lemmas ===== -/

theorem adjustAndOr_children (s : PState) (n : Nat) :
    (adjustAndOr s n).children = s.children := by
  cases h : s.labels n with
  | none => simp only [adjustAndOr, h]
  | some stored =>
    simp only [adjustAndOr, h]
    split <;> rfl

theorem adjustAndOr_parent (s : PState) (n : Nat) :
    (adjustAndOr s n).parent = s.parent := by
  cases h : s.labels n with
  | none => simp only [adjustAndOr, h]
  | some stored =>
    simp only [adjustAndOr, h]
    split <;> rfl

theorem adjustAndOr_all (s : PState) (n : Nat) :
    (adjustAndOr s n).all = s.all := by
  cases h : s.labels n with
  | none => simp only [adjustAndOr, h]
  | some stored =>
    simp only [adjustAndOr, h]
    split <;> rfl

theorem adjustAndOr_kind (s : PState) (n : Nat) :
    (adjustAndOr s n).kind = s.kind := by
  cases h : s.labels n with
  | none => simp only [adjustAndOr, h]
  | some stored =>
    simp only [adjustAndOr, h]
    split <;> rfl

theorem adjustAndOr_lastUsed (s : PState) (n : Nat) :
    (adjustAndOr s n).lastUsed = s.lastUsed := by
  cases h : s.labels n with
  | none => simp only [adjustAndOr, h]
  | some stored =>
    simp only [adjustAndOr, h]
    split <;> rfl

theorem adjustAndOr_nextId (s : PState) (n : Nat) :
    (adjustAndOr s n).nextId = s.nextId := by
  cases h : s.labels n with
  | none => simp only [adjustAndOr, h]
  | some stored =>
    simp only [adjustAndOr, h]
    split <;> rfl

theorem adjustAndOr_modCount (s : PState) (n : Nat) :
    (adjustAndOr s n).modCount = s.modCount := by
  cases h : s.labels n with
  | none => simp only [adjustAndOr, h]
  | some stored =>
    simp only [adjustAndOr, h]
    split <;> rfl

theorem refreshChildren_children (ns : List Nat) (s : PState) :
    (refreshChildren s ns).children = s.children := by
  induction ns generalizing s with
  | nil => rfl
  | cons n rest ih => rw [refreshChildren, ih, adjustAndOr_children]

theorem refreshChildren_parent (ns : List Nat) (s : PState) :
    (refreshChildren s ns).parent = s.parent := by
  induction ns generalizing s with
  | nil => rfl
  | cons n rest ih => rw [refreshChildren, ih, adjustAndOr_parent]

theorem refreshChildren_all (ns : List Nat) (s : PState) :
    (refreshChildren s ns).all = s.all := by
  induction ns generalizing s with
  | nil => rfl
  | cons n rest ih => rw [refreshChildren, ih, adjustAndOr_all]

theorem refreshChildren_kind (ns : List Nat) (s : PState) :
    (refreshChildren s ns).kind = s.kind := by
  induction ns generalizing s with
  | nil => rfl
  | cons n rest ih => rw [refreshChildren, ih, adjustAndOr_kind]

theorem refreshChildren_lastUsed (ns : List Nat) (s : PState) :
    (refreshChildren s ns).lastUsed = s.lastUsed := by
  induction ns generalizing s with
  | nil => rfl
  | cons n rest ih => rw [refreshChildren, ih, adjustAndOr_lastUsed]

theorem refreshChildren_nextId (ns : List Nat) (s : PState) :
    (refreshChildren s ns).nextId = s.nextId := by
  induction ns generalizing s with
  | nil => rfl
  | cons n rest ih => rw [refreshChildren, ih, adjustAndOr_nextId]

theorem refreshChildren_modCount (ns : List Nat) (s : PState) :
    (refreshChildren s ns).modCount = s.modCount := by
  induction ns generalizing s with
  | nil => rfl
  | cons n rest ih => rw [refreshChildren, ih, adjustAndOr_modCount]

theorem andOrText_congr (s t : PState) (hc : s.children = t.children)
    (hp : s.parent = t.parent) (ha : s.all = t.all) (n : Nat) :
    andOrText s n = andOrText t n := by
  unfold andOrText
  rw [hc, hp, ha]

theorem andOrText_adjustAndOr (s : PState) (n m : Nat) :
    andOrText (adjustAndOr s n) m = andOrText s m :=
  andOrText_congr _ _ (adjustAndOr_children s n) (adjustAndOr_parent s n)
    (adjustAndOr_all s n) m

theorem adjustAndOr_labels (s : PState) (n m : Nat) :
    (adjustAndOr s n).labels m =
      if m = n then Option.map (fun _ => andOrText s n) (s.labels n) else s.labels m := by
  cases h : s.labels n with
  | none =>
    simp only [adjustAndOr, h, Option.map_none']
    by_cases hm : m = n
    · subst hm; rw [if_pos rfl, h]
    · rw [if_neg hm]
  | some stored =>
    simp only [adjustAndOr, h, Option.map_some']
    by_cases hne : andOrText s n ≠ stored
    · rw [if_pos hne]
    · rw [if_neg hne]
      push_neg at hne
      by_cases hm : m = n
      · subst hm; rw [if_pos rfl, h, hne]
      · rw [if_neg hm]

theorem refreshChildren_labels (ns : List Nat) (s : PState) (m : Nat) :
    (refreshChildren s ns).labels m =
      if m ∈ ns then Option.map (fun _ => andOrText s m) (s.labels m) else s.labels m := by
  induction ns generalizing s with
  | nil => simp [refreshChildren]
  | cons n rest ih =>
    rw [refreshChildren, ih, andOrText_adjustAndOr, adjustAndOr_labels]
    by_cases hmr : m ∈ rest
    · rw [if_pos hmr, if_pos (List.mem_cons_of_mem n hmr)]
      by_cases hm : m = n
      · rw [if_pos hm, hm]
        cases s.labels n <;> simp
      · rw [if_neg hm]
    · rw [if_neg hmr]
      by_cases hm : m = n
      · rw [if_pos hm, hm, if_pos (List.mem_cons_self n rest)]
      · rw [if_neg hm, if_neg (by simp [hm, hmr])]

theorem adjustAndOr_eq_self (s : PState) (n : Nat)
    (h : s.labels n = none ∨ s.labels n = some (andOrText s n)) :
    adjustAndOr s n = s := by
  cases h with
  | inl h => simp only [adjustAndOr, h]
  | inr h => simp [adjustAndOr, h]

theorem refreshChildren_fixed (ns : List Nat) (s : PState)
    (h : ∀ n ∈ ns, s.labels n = none ∨ s.labels n = some (andOrText s n)) :
    refreshChildren s ns = s := by
  induction ns with
  | nil => rfl
  | cons n rest ih =>
    rw [refreshChildren, adjustAndOr_eq_self s n (h n (List.mem_cons_self n rest)),
      ih (fun m hm => h m (List.mem_cons_of_mem n hm))]

/-- C8: RefreshList is idempotent: running adjustAndOrForList twice in a
row with no intervening tree mutation leaves the state of the second run
identical to the state after the first run; each call recomputes the
connective of every direct child and rewrites a stored label only when
the recomputed text differs (adjustAndOr at prereq_panel.go:198-211). -/
theorem refreshList_idempotent (s : PState) (l : Nat) :
    adjustAndOrForList (adjustAndOrForList s l) l = adjustAndOrForList s l := by
  unfold adjustAndOrForList
  apply refreshChildren_fixed
  intro n hn
  rw [refreshChildren_children] at hn
  rw [refreshChildren_labels, if_pos hn]
  cases hl : s.labels n with
  | none => exact Or.inl rfl
  | some t =>
    right
    rw [andOrText_congr (refreshChildren s (s.children l)) s (refreshChildren_children _ _)
      (refreshChildren_parent _ _) (refreshChildren_all _ _) n]
    rfl

/- ===== slices.IndexFunc and supporting list lemmas ===== -/

/-- First index at which the predicate holds, embedding slices.IndexFunc
(and slices.Index, which is the same search with an equality predicate);
none stands for the Go result -1. -/
def indexFunc (p : Nat → Bool) : List Nat → Option Nat
  | [] => none
  | a :: as => if p a then some 0 else (indexFunc p as).map (· + 1)

theorem indexFunc_eq_none_of_not_mem (n : Nat) (cs : List Nat) (h : n ∉ cs) :
    indexFunc (fun m => m == n) cs = none := by
  induction cs with
  | nil => rfl
  | cons a as ih =>
    have ha : ¬a = n := fun e => h (e ▸ List.mem_cons_self a as)
    have has : n ∉ as := fun e => h (List.mem_cons_of_mem a e)
    simp only [indexFunc]
    rw [if_neg (by simp [ha]), ih has]
    rfl

theorem not_mem_of_indexFunc_eq_none (n : Nat) (cs : List Nat)
    (h : indexFunc (fun m => m == n) cs = none) : n ∉ cs := by
  induction cs with
  | nil => simp
  | cons a as ih =>
    simp only [indexFunc] at h
    by_cases ha : a = n
    · rw [if_pos (by simp [ha])] at h
      exact absurd h (by simp)
    · rw [if_neg (by simp [ha])] at h
      have has : indexFunc (fun m => m == n) as = none := by
        cases hx : indexFunc (fun m => m == n) as with
        | none => rfl
        | some i => rw [hx] at h; simp at h
      intro hmem
      rcases List.mem_cons.mp hmem with he | hmem2
      · exact ha he.symm
      · exact ih has hmem2

theorem eraseIdx_eq_erase_of_indexFunc (n : Nat) (cs : List Nat) (i : Nat)
    (h : indexFunc (fun m => m == n) cs = some i) : cs.eraseIdx i = cs.erase n := by
  induction cs generalizing i with
  | nil => simp [indexFunc] at h
  | cons a as ih =>
    simp only [indexFunc] at h
    by_cases ha : a = n
    · rw [if_pos (by simp [ha])] at h
      obtain rfl : (0 : Nat) = i := Option.some.inj h
      subst ha
      rw [List.eraseIdx_cons_zero, List.erase_cons_head]
    · rw [if_neg (by simp [ha])] at h
      rcases Option.map_eq_some'.mp h with ⟨j, hj, rfl⟩
      rw [List.eraseIdx_cons_succ, List.erase_cons_tail (by simp [ha]), ih j hj]

theorem indexFunc_eq_indexOf_of_mem (n : Nat) (cs : List Nat) (h : n ∈ cs) :
    indexFunc (fun m => m == n) cs = some (cs.indexOf n) := by
  induction cs with
  | nil => simp at h
  | cons a as ih =>
    simp only [indexFunc, List.indexOf_cons]
    by_cases ha : a = n
    · rw [if_pos (by simp [ha])]
      simp [ha]
    · rw [if_neg (by simp [ha])]
      have hmem : n ∈ as := by
        rcases List.mem_cons.mp h with he | hmem2
        · exact absurd he.symm ha
        · exact hmem2
      rw [ih hmem]
      have hb : (a == n) = false := by simp [ha]
      simp [hb]

theorem indexFunc_eq_of_nodup (cs : List Nat) (n : Nat) :
    ∀ i : Nat, cs.Nodup → cs[i]? = some n → indexFunc (fun m => m == n) cs = some i := by
  induction cs with
  | nil => intro i _ hi; simp at hi
  | cons a as ih =>
    intro i hnd hi
    cases i with
    | zero =>
      rw [List.getElem?_cons_zero] at hi
      obtain rfl : a = n := Option.some.inj hi
      simp [indexFunc]
    | succ i =>
      rw [List.getElem?_cons_succ] at hi
      have hmem : n ∈ as := by
        rcases List.getElem?_eq_some.mp hi with ⟨hlt, he⟩
        exact he ▸ List.getElem_mem hlt
      have ha : ¬a = n := fun e => (List.nodup_cons.mp hnd).1 (e ▸ hmem)
      simp only [indexFunc]
      rw [if_neg (by simp [ha]), ih i (List.nodup_cons.mp hnd).2 hi]
      rfl

theorem getElem?_insertIdx_self (n : Nat) :
    ∀ (pos : Nat) (cs : List Nat), pos ≤ cs.length →
      (List.insertIdx pos n cs)[pos]? = some n := by
  intro pos
  induction pos with
  | zero => intro cs _; rw [List.insertIdx_zero, List.getElem?_cons_zero]
  | succ pos ih =>
    intro cs hlen
    cases cs with
    | nil => exact absurd hlen (Nat.not_succ_le_zero pos)
    | cons a as =>
      rw [List.insertIdx_succ_cons, List.getElem?_cons_succ]
      exact ih as (Nat.le_of_succ_le_succ hlen)

theorem erase_insertIdx (n : Nat) :
    ∀ (pos : Nat) (cs : List Nat), n ∉ cs → pos ≤ cs.length →
      (List.insertIdx pos n cs).erase n = cs := by
  intro pos
  induction pos with
  | zero => intro cs _ _; rw [List.insertIdx_zero, List.erase_cons_head]
  | succ pos ih =>
    intro cs hnm hlen
    cases cs with
    | nil => exact absurd hlen (Nat.not_succ_le_zero pos)
    | cons a as =>
      have ha : ¬a = n := fun e => hnm (e ▸ List.mem_cons_self a as)
      rw [List.insertIdx_succ_cons, List.erase_cons_tail (by simp [ha]),
        ih as (fun e => hnm (List.mem_cons_of_mem a e)) (Nat.le_of_succ_le_succ hlen)]

theorem filter_insertIdx_neg (p : Nat → Bool) (n : Nat) (hpn : p n = false) :
    ∀ (pos : Nat) (cs : List Nat), pos ≤ cs.length →
      (List.insertIdx pos n cs).filter p = cs.filter p := by
  intro pos
  induction pos with
  | zero => intro cs _; rw [List.insertIdx_zero, List.filter_cons, if_neg (by simp [hpn])]
  | succ pos ih =>
    intro cs hlen
    cases cs with
    | nil => exact absurd hlen (Nat.not_succ_le_zero pos)
    | cons a as =>
      rw [List.insertIdx_succ_cons, List.filter_cons, List.filter_cons,
        ih as (Nat.le_of_succ_le_succ hlen)]

theorem filter_erase_neg (p : Nat → Bool) (n : Nat) (hpn : p n = false) :
    ∀ cs : List Nat, (cs.erase n).filter p = cs.filter p := by
  intro cs
  induction cs with
  | nil => rfl
  | cons a as ih =>
    by_cases ha : a = n
    · subst ha
      rw [List.erase_cons_head, List.filter_cons, if_neg (by simp [hpn])]
    · rw [List.erase_cons_tail (by simp [ha]), List.filter_cons, List.filter_cons]
      cases hpa : p a <;> simp [ih]

/- ===== tree-editing operations ===== -/

/-- Initial value of the package-level variable lastPrereqTypeUsed
(prereq_panel.go:29), model.TraitPrereqType. -/
def lastPrereqTypeUsedInit : Nat := traitPrereqType

/-- Removal of the first occurrence of a node from the child sequence of
one list: the slices.IndexFunc plus slices.Delete pattern of the delete
button callback (prereq_panel.go:170-172), a no-op when the node is not
found. -/
def removeFirstNode (s : PState) (l n : Nat) : PState :=
  match indexFunc (fun m => m == n) (s.children l) with
  | none => s
  | some i =>
    { s with children := fun m => if m = l then (s.children l).eraseIdx i else s.children m }

theorem removeFirstNode_children (s : PState) (l n : Nat) :
    (removeFirstNode s l n).children =
      fun m => if m = l then (s.children l).erase n else s.children m := by
  funext m
  unfold removeFirstNode
  cases hx : indexFunc (fun m => m == n) (s.children l) with
  | none =>
    have hnm := not_mem_of_indexFunc_eq_none n (s.children l) hx
    dsimp only
    rw [List.erase_of_not_mem hnm]
    by_cases hm : m = l
    · rw [if_pos hm, hm]
    · rw [if_neg hm]
  | some i =>
    have he := eraseIdx_eq_erase_of_indexFunc n (s.children l) i hx
    dsimp only
    rw [he]

theorem removeFirstNode_parent (s : PState) (l n : Nat) :
    (removeFirstNode s l n).parent = s.parent := by
  unfold removeFirstNode
  cases indexFunc (fun m => m == n) (s.children l) <;> rfl

theorem removeFirstNode_all (s : PState) (l n : Nat) :
    (removeFirstNode s l n).all = s.all := by
  unfold removeFirstNode
  cases indexFunc (fun m => m == n) (s.children l) <;> rfl

theorem removeFirstNode_kind (s : PState) (l n : Nat) :
    (removeFirstNode s l n).kind = s.kind := by
  unfold removeFirstNode
  cases indexFunc (fun m => m == n) (s.children l) <;> rfl

theorem removeFirstNode_labels (s : PState) (l n : Nat) :
    (removeFirstNode s l n).labels = s.labels := by
  unfold removeFirstNode
  cases indexFunc (fun m => m == n) (s.children l) <;> rfl

theorem removeFirstNode_lastUsed (s : PState) (l n : Nat) :
    (removeFirstNode s l n).lastUsed = s.lastUsed := by
  unfold removeFirstNode
  cases indexFunc (fun m => m == n) (s.children l) <;> rfl

theorem removeFirstNode_nextId (s : PState) (l n : Nat) :
    (removeFirstNode s l n).nextId = s.nextId := by
  unfold removeFirstNode
  cases indexFunc (fun m => m == n) (s.children l) <;> rfl

theorem removeFirstNode_modCount (s : PState) (l n : Nat) :
    (removeFirstNode s l n).modCount = s.modCount := by
  unfold removeFirstNode
  cases indexFunc (fun m => m == n) (s.children l) <;> rfl

/-- Node construction from createPrereqForType (prereq_panel.go:245-283):
for each of the eight known kind tags a fresh default node is allocated
with its Parent back-reference set to the destination list (the
rule-domain default field values of the leaf kinds are outside the
structural state; a fresh nested list starts with no children and the
conjunction default of model.NewPrereqList); an unknown tag falls into
the default branch, which logs a warning and returns nil, embedded as
none. -/
def createPrereqForType (s : PState) (prereqType parentList : Nat) :
    Option (PState × Nat) :=
  if knownPrereqType prereqType then
    some ({ s with
        children := fun m => if m = s.nextId then [] else s.children m,
        parent := fun m => if m = s.nextId then some parentList else s.parent m,
        all := fun m => if m = s.nextId then true else s.all m,
        kind := fun m => if m = s.nextId then prereqType else s.kind m,
        nextId := s.nextId + 1 }, s.nextId)
  else none

/-- Click handler of the add-prerequisite button (prereq_panel.go:142-150):
create a node of the last-used kind; when creation succeeds the node is
inserted at position 0 of the children of the list, the connectives of
the list are refreshed and the document is marked modified; when
creation fails nothing at all happens. -/
def addChildOp (s : PState) (l : Nat) : PState :=
  match createPrereqForType s s.lastUsed l with
  | none => s
  | some (s1, created) =>
    let s2 := { s1 with
      children := fun m => if m = l then created :: s1.children m else s1.children m }
    let s3 := adjustAndOrForList s2 l
    { s3 with modCount := s3.modCount + 1 }

/-- Delete button callback (prereq_panel.go:165-179): the button only
exists when the node has a parent list, which the embedding renders as
the RootDeletionForbidden failure for a parentless node; otherwise the
andOrMap entry of the node is deleted first, then the node is removed
from the parent child sequence when found, the connectives of the parent
are refreshed and the document is marked modified. -/
def deleteNodeOp (s : PState) (n : Nat) : PState × Option PrereqErr :=
  match s.parent n with
  | none => (s, some PrereqErr.RootDeletionForbidden)
  | some l =>
    let s1 := { s with labels := fun m => if m = n then none else s.labels m }
    let s2 := removeFirstNode s1 l n
    let s3 := adjustAndOrForList s2 l
    ({ s3 with modCount := s3.modCount + 1 }, none)

/-- Selection handler of the kind-switcher popup (prereq_panel.go:227-242):
when construction of the new node succeeds, the last-used kind is
recorded, the position of the old node in its parent is located with
slices.IndexFunc, the slice slot is overwritten in place with the new
node, and the document is marked modified.  The popup is only attached
to leaf panels, whose nodes always have a parent; a parentless node is
embedded as leaving the state unchanged (the spec renders this case as
the NotFound failure). -/
def changeKindOp (s : PState) (pr k : Nat) : PState :=
  match s.parent pr with
  | none => s
  | some parentList =>
    match createPrereqForType s k parentList with
    | none => s
    | some (s1, newPrereq) =>
      let s2 := { s1 with lastUsed := k }
      match indexFunc (fun m => m == pr) (s2.children parentList) with
      | none => s2
      | some i =>
        { s2 with
          children := fun m =>
            if m = parentList then (s2.children parentList).set i newPrereq
            else s2.children m,
          modCount := s2.modCount + 1 }

/-- Modelled from the spec: the generic PrereqTree.Insert(list, position,
node) operation of section 4.1, with the position clamped to the length
of the child sequence; the sampled source only contains the specialised
call sites slices.Insert(.., 0, ..) (prereq_panel.go:144 and 157) and
slices.Insert(.., dragInsert, ..) (the hit-location drop handler), so
the general operation is taken from the spec text. -/
def insertChildOp (s : PState) (l k n : Nat) : PState :=
  { s with children := fun m =>
      if m = l then List.insertIdx (min k (s.children l).length) n (s.children l)
      else s.children m }

/-- Modelled from the spec: the ancestry walk of the Move cycle check
(section 4.2: Move fails when newParent is node itself or a descendant
of it, which is checked by walking ancestry upward before mutating).
Returns true when target is reached from start by zero or more parent
steps; the fuel bounds the walk so the function is total on arbitrary
states. -/
def ancestryReaches (s : PState) : Nat → Nat → Nat → Bool
  | 0, start, target => start == target
  | fuel + 1, start, target =>
    start == target ||
      match s.parent start with
      | none => false
      | some q => ancestryReaches s fuel q target

/-- Modelled from the spec: Move(node, newParent, newPosition) of
section 4.2 is described for prerequisite drag-and-drop but no such
operation appears in the sampled source files; following the spec text,
the cycle check walks ancestry upward from newParent before any
mutation, failing with SelfParentingForbidden when it reaches node;
then the node is removed from its current parent with the IndexFunc plus
Delete pattern, inserted into newParent at the position clamped to the
length of its child sequence, the parent back-reference is rewired, the
connectives of both affected lists are refreshed, and one modified
notification is issued. -/
def moveOp (s : PState) (node newParent newPosition : Nat) :
    PState × Option PrereqErr :=
  if ancestryReaches s s.nextId newParent node then
    (s, some PrereqErr.SelfParentingForbidden)
  else
    match s.parent node with
    | none => (s, some PrereqErr.NotFound)
    | some l =>
      let s1 := removeFirstNode s l node
      let s2 := { s1 with
        children := fun m =>
          if m = newParent then
            List.insertIdx (min newPosition (s1.children newParent).length) node
              (s1.children newParent)
          else s1.children m,
        parent := fun m => if m = node then some newParent else s1.parent m,
        modCount := s1.modCount + 1 }
      (adjustAndOrForList (adjustAndOrForList s2 l) newParent, none)

/-- Hit-location reorder of the drop handler dataDragDrop of the body
settings dockable: the dragged location is looked up with slices.Index
in the Locations slice of its owning table, deleted there, the drop
index is decremented when the deletion happened at a smaller index, and
the location is re-inserted at the resulting index.  The none branch
totalizes the Go behaviour for a location that is absent from its owning
table (slices.Delete would panic there; the dragged panel always holds a
location of the table, so the branch is unreachable in the program). -/
def dataDragDropLocations (locs : List Nat) (loc dragInsert : Nat) : List Nat :=
  match indexFunc (fun m => m == loc) locs with
  | none => locs
  | some i =>
    let j := if i < dragInsert then dragInsert - 1 else dragInsert
    List.insertIdx j loc (locs.eraseIdx i)

/- ===== claim theorems ===== -/

/-- Sample tree used by the concrete witnesses: list 0 is the root with
children [1, 2], node 1 is a nested list with the single child 3, nodes
2 and 3 are trait leaves, node 2 holds a stored connective label. -/
def sampleS : PState := {
  children := fun m => if m = 0 then [1, 2] else if m = 1 then [3] else [],
  parent := fun m => if m = 1 ∨ m = 2 then some 0 else if m = 3 then some 1 else none,
  all := fun _ => true,
  kind := fun _ => 1,
  labels := fun m => if m = 2 then some "and" else none,
  lastUsed := 1,
  nextId := 4,
  modCount := 0 }

/-- C1: for a child at position i of the child sequence of list l (under
the reference-identity invariant that the children of a list are
pairwise distinct), the connective computed by andOrText is empty when
i = 0 or the list has fewer than two children, and otherwise is "and"
when the combinator flag All of the list holds and "or" when it does
not; toggling the flag leaves the label of the first child unchanged. -/
theorem andOr_label_of_position (s : PState) (l n i : Nat) (b : Bool)
    (hp : s.parent n = some l) (hnd : (s.children l).Nodup)
    (hi : (s.children l)[i]? = some n) :
    andOrText s n =
      (if i = 0 ∨ (s.children l).length < 2 then noAndOr
       else if s.all l then "and" else "or")
    ∧ (i = 0 → andOrText (setAllFlag s l b) n = andOrText s n) := by
  have hilt : i < (s.children l).length := (List.getElem?_eq_some.mp hi).1
  have hhead : (s.children l).head? = some n ↔ i = 0 := by
    rw [List.head?_eq_getElem?]
    constructor
    · intro h0
      exact (List.getElem?_inj (Nat.lt_of_le_of_lt (Nat.zero_le i) hilt) hnd
        (h0.trans hi.symm)).symm
    · intro h0
      rw [h0] at hi
      exact hi
  constructor
  · simp only [andOrText, hp]
    by_cases hlen : (s.children l).length < 2
    · rw [if_pos (Or.inl hlen), if_pos (Or.inr hlen)]
    · by_cases hi0 : i = 0
      · rw [if_pos (Or.inr (hhead.mpr hi0)), if_pos (Or.inl hi0)]
      · have hc1 : ¬((s.children l).length < 2 ∨ (s.children l).head? = some n) :=
          fun h => h.elim hlen (fun hh => hi0 (hhead.mp hh))
        have hc2 : ¬(i = 0 ∨ (s.children l).length < 2) := fun h => h.elim hi0 hlen
        rw [if_neg hc1, if_neg hc2]
  · intro hi0
    have hh : (s.children l).head? = some n := hhead.mpr hi0
    simp only [andOrText, setAllFlag, hp]
    rw [if_pos (Or.inr hh), if_pos (Or.inr hh)]

/-- Witness for C1 at the sample tree: node 2 sits at position 1 of the
two children of list 0. -/
theorem andOr_label_of_position_witness :
    andOrText sampleS 2 =
      (if 1 = 0 ∨ (sampleS.children 0).length < 2 then noAndOr
       else if sampleS.all 0 then "and" else "or")
    ∧ (1 = 0 → andOrText (setAllFlag sampleS 0 false) 2 = andOrText sampleS 2) :=
  andOr_label_of_position sampleS 0 2 1 false (by decide) (by decide) (by decide)

theorem deleteNodeOp_fst_children (s : PState) (n l : Nat) (hp : s.parent n = some l) :
    (deleteNodeOp s n).1.children =
      fun m => if m = l then (s.children l).erase n else s.children m := by
  funext m
  simp only [deleteNodeOp, hp, adjustAndOrForList]
  rw [refreshChildren_children, removeFirstNode_children]

theorem deleteNodeOp_fst_labels (s : PState) (n l : Nat) (hp : s.parent n = some l) :
    (deleteNodeOp s n).1.labels n = none := by
  simp only [deleteNodeOp, hp, adjustAndOrForList]
  rw [refreshChildren_labels, removeFirstNode_labels]
  dsimp only
  rw [if_pos rfl]
  split <;> rfl

theorem deleteNodeOp_fst_modCount (s : PState) (n l : Nat) (hp : s.parent n = some l) :
    (deleteNodeOp s n).1.modCount = s.modCount + 1 := by
  simp only [deleteNodeOp, hp, adjustAndOrForList]
  rw [refreshChildren_modCount, removeFirstNode_modCount]

/-- C4: deleting the root (a node with no parent) always fails with
RootDeletionForbidden and leaves the state untouched, and deleting a
non-root node removes exactly that node from the child sequence of its
parent, leaves every other child sequence untouched, and discards the
side-table label entry keyed by the node. -/
theorem deleteNode_root_and_child (s : PState) (n l : Nat) :
    (s.parent n = none →
      deleteNodeOp s n = (s, some PrereqErr.RootDeletionForbidden))
    ∧ (s.parent n = some l → (s.children l).Nodup → n ∈ s.children l →
        (deleteNodeOp s n).1.children l = (s.children l).erase n
        ∧ (∀ m, m ≠ l → (deleteNodeOp s n).1.children m = s.children m)
        ∧ (deleteNodeOp s n).1.labels n = none) := by
  constructor
  · intro hp0
    simp only [deleteNodeOp, hp0]
  · intro hp hnd hmem
    refine ⟨?_, ?_, deleteNodeOp_fst_labels s n l hp⟩
    · rw [deleteNodeOp_fst_children s n l hp]
      dsimp only
      rw [if_pos rfl]
    · intro m hm
      rw [deleteNodeOp_fst_children s n l hp]
      dsimp only
      rw [if_neg hm]

/-- Witness for C4 at the sample tree: deleting the parentless root 0
fails, deleting leaf 2 removes it from list 0 and clears its label. -/
theorem deleteNode_root_and_child_witness :
    deleteNodeOp sampleS 0 = (sampleS, some PrereqErr.RootDeletionForbidden)
    ∧ ((deleteNodeOp sampleS 2).1.children 0 = (sampleS.children 0).erase 2
       ∧ (∀ m, m ≠ 0 → (deleteNodeOp sampleS 2).1.children m = sampleS.children m)
       ∧ (deleteNodeOp sampleS 2).1.labels 2 = none) :=
  ⟨(deleteNode_root_and_child sampleS 0 0).1 (by decide),
   (deleteNode_root_and_child sampleS 2 0).2 (by decide) (by decide) (by decide)⟩

/-- State on which the delete validation check fails: node 1 claims list
0 as its parent but is absent from the child sequence of list 0, and
node 1 holds a side-table label entry. -/
def cexDeleteS : PState := {
  children := fun _ => [],
  parent := fun m => if m = 1 then some 0 else none,
  all := fun _ => true,
  kind := fun _ => 1,
  labels := fun m => if m = 1 then some "and" else none,
  lastUsed := 1,
  nextId := 2,
  modCount := 0 }

/-- C2 counterexample: when the delete operation fails its validation
check (the node is not found in the child sequence of its parent), the
node-to-label side table is not left as it was: the entry keyed by the
node is discarded before the membership check runs
(prereq_panel.go:169-172), so the state after the failed operation
differs from the state before it. -/
theorem delete_validation_failure_not_atomic :
    cexDeleteS.parent 1 = some 0
    ∧ 1 ∉ cexDeleteS.children 0
    ∧ (deleteNodeOp cexDeleteS 1).1.labels 1 ≠ cexDeleteS.labels 1 := by
  decide

/-- C2 amended: when the delete operation hits its validation failure
(the node is absent from the child sequence of its parent), every child
sequence of the tree is left exactly unchanged, but the operation is not
a complete no-op: the side-table entry keyed by the node has still been
discarded, and the modified notification still fires. -/
theorem delete_validation_failure_amended (s : PState) (n l : Nat)
    (hp : s.parent n = some l) (hmem : n ∉ s.children l) :
    (deleteNodeOp s n).1.children = s.children
    ∧ (deleteNodeOp s n).1.labels n = none
    ∧ (deleteNodeOp s n).1.modCount = s.modCount + 1 := by
  refine ⟨?_, deleteNodeOp_fst_labels s n l hp, deleteNodeOp_fst_modCount s n l hp⟩
  rw [deleteNodeOp_fst_children s n l hp]
  funext m
  dsimp only
  by_cases hm : m = l
  · rw [if_pos hm, List.erase_of_not_mem hmem, hm]
  · rw [if_neg hm]

/-- Witness for the amended C2 statement at the concrete failing state. -/
theorem delete_validation_failure_amended_witness :
    (deleteNodeOp cexDeleteS 1).1.children = cexDeleteS.children
    ∧ (deleteNodeOp cexDeleteS 1).1.labels 1 = none
    ∧ (deleteNodeOp cexDeleteS 1).1.modCount = cexDeleteS.modCount + 1 :=
  delete_validation_failure_amended cexDeleteS 1 0 (by decide) (by decide)

/-- C7: inserting a node that is not yet among the children of a list at
any position and then removing that node from the same list restores
every child sequence exactly, leaving every other node at its original
position. -/
theorem insert_remove_round_trip (s : PState) (l k n : Nat)
    (h : n ∉ s.children l) :
    (removeFirstNode (insertChildOp s l k n) l n).children = s.children := by
  rw [removeFirstNode_children]
  funext m
  dsimp only
  by_cases hm : m = l
  · rw [if_pos hm, hm]
    show ((insertChildOp s l k n).children l).erase n = s.children l
    have hins : (insertChildOp s l k n).children l =
        List.insertIdx (min k (s.children l).length) n (s.children l) := by
      simp [insertChildOp]
    rw [hins, erase_insertIdx n (min k (s.children l).length) (s.children l) h
      (min_le_right k (s.children l).length)]
  · rw [if_neg hm]
    simp only [insertChildOp]
    rw [if_neg hm]

/-- Witness for C7 at the sample tree: node 3 is inserted into list 0 at
position 1 and removed again. -/
theorem insert_remove_round_trip_witness :
    (removeFirstNode (insertChildOp sampleS 0 1 3) 0 3).children = sampleS.children :=
  insert_remove_round_trip sampleS 0 1 3 (by decide)

theorem addChildOp_spec (s : PState) (l : Nat)
    (hk : knownPrereqType s.lastUsed = true) (hl : l < s.nextId) :
    (addChildOp s l).children l = s.nextId :: s.children l
    ∧ (addChildOp s l).kind s.nextId = s.lastUsed
    ∧ (addChildOp s l).lastUsed = s.lastUsed
    ∧ (addChildOp s l).nextId = s.nextId + 1 := by
  have hlne : ¬l = s.nextId := Nat.ne_of_lt hl
  refine ⟨?_, ?_, ?_, ?_⟩
  · simp only [addChildOp, createPrereqForType, hk, if_true, adjustAndOrForList]
    rw [refreshChildren_children]
    dsimp only
    rw [if_pos rfl, if_neg hlne]
  · simp only [addChildOp, createPrereqForType, hk, if_true, adjustAndOrForList]
    rw [refreshChildren_kind]
    dsimp only
    rw [if_pos rfl]
  · simp only [addChildOp, createPrereqForType, hk, if_true, adjustAndOrForList]
    rw [refreshChildren_lastUsed]
  · simp only [addChildOp, createPrereqForType, hk, if_true, adjustAndOrForList]
    rw [refreshChildren_nextId]

/-- C6: the add-child button creates a node of the most-recently-used
kind (at process start the trait kind) and inserts it at position 0 of
the child sequence of the list, shifting every existing child one
position later; a second add puts its new node at position 0 and the
previously added node at position 1. -/
theorem addChild_inserts_at_front (s : PState) (l : Nat)
    (hk : knownPrereqType s.lastUsed = true) (hl : l < s.nextId) :
    (addChildOp s l).children l = s.nextId :: s.children l
    ∧ (addChildOp s l).kind s.nextId = s.lastUsed
    ∧ (addChildOp (addChildOp s l) l).children l
        = (s.nextId + 1) :: s.nextId :: s.children l
    ∧ lastPrereqTypeUsedInit = traitPrereqType := by
  obtain ⟨h1, h2, h3, h4⟩ := addChildOp_spec s l hk hl
  refine ⟨h1, h2, ?_, rfl⟩
  obtain ⟨g1, _, _, _⟩ := addChildOp_spec (addChildOp s l) l
    (by rw [h3]; exact hk) (by rw [h4]; exact Nat.lt_succ_of_lt hl)
  rw [g1, h4, h1]

/-- Witness for C6 at the sample tree, adding twice to the root list 0. -/
theorem addChild_inserts_at_front_witness :
    (addChildOp sampleS 0).children 0 = sampleS.nextId :: sampleS.children 0
    ∧ (addChildOp sampleS 0).kind sampleS.nextId = sampleS.lastUsed
    ∧ (addChildOp (addChildOp sampleS 0) 0).children 0
        = (sampleS.nextId + 1) :: sampleS.nextId :: sampleS.children 0
    ∧ lastPrereqTypeUsedInit = traitPrereqType :=
  addChild_inserts_at_front sampleS 0 (by decide) (by decide)

/-- C5: switching the kind of a non-root node that sits at position i of
the child sequence of its parent replaces it in place with a freshly
constructed default node of the requested kind at the same position i,
leaves every other child at its prior position, and records the
requested kind as the most-recently-used default. -/
theorem changeKind_preserves_position (s : PState) (n l k i : Nat)
    (hp : s.parent n = some l) (hk : knownPrereqType k = true)
    (hl : l < s.nextId) (hnd : (s.children l).Nodup)
    (hi : (s.children l)[i]? = some n) :
    (changeKindOp s n k).children l = (s.children l).set i s.nextId
    ∧ ((changeKindOp s n k).children l)[i]? = some s.nextId
    ∧ (∀ j, j ≠ i → ((changeKindOp s n k).children l)[j]? = (s.children l)[j]?)
    ∧ (changeKindOp s n k).kind s.nextId = k
    ∧ (changeKindOp s n k).lastUsed = k := by
  have hlne : ¬l = s.nextId := Nat.ne_of_lt hl
  have hilt : i < (s.children l).length := (List.getElem?_eq_some.mp hi).1
  have hidx : indexFunc (fun m => m == n) (s.children l) = some i :=
    indexFunc_eq_of_nodup (s.children l) n i hnd hi
  have hch : (changeKindOp s n k).children l = (s.children l).set i s.nextId := by
    simp only [changeKindOp, hp, createPrereqForType, hk, if_true, hlne, if_false, hidx]
  have hkind : (changeKindOp s n k).kind s.nextId = k := by
    simp only [changeKindOp, hp, createPrereqForType, hk, if_true, hlne, if_false, hidx]
  have hlast : (changeKindOp s n k).lastUsed = k := by
    simp only [changeKindOp, hp, createPrereqForType, hk, if_true, hlne, if_false, hidx]
  refine ⟨hch, ?_, ?_, hkind, hlast⟩
  · rw [hch]
    exact List.getElem?_set_self hilt
  · intro j hj
    rw [hch]
    exact List.getElem?_set_ne hj.symm

/-- Witness for C5 at the sample tree: node 2 at position 1 of list 0 is
switched to the spell kind. -/
theorem changeKind_preserves_position_witness :
    (changeKindOp sampleS 2 7).children 0 = (sampleS.children 0).set 1 sampleS.nextId
    ∧ ((changeKindOp sampleS 2 7).children 0)[1]? = some sampleS.nextId
    ∧ (∀ j, j ≠ 1 → ((changeKindOp sampleS 2 7).children 0)[j]? = (sampleS.children 0)[j]?)
    ∧ (changeKindOp sampleS 2 7).kind sampleS.nextId = 7
    ∧ (changeKindOp sampleS 2 7).lastUsed = 7 :=
  changeKind_preserves_position sampleS 2 0 7 1 (by decide) (by decide) (by decide)
    (by decide) (by decide)

/-- C9: a kind tag outside the eight known variants makes node creation
return nothing, and the add operation whose last-used kind is such a tag
is a complete no-op: the state after the click equals the state before
it, so nothing is inserted, no label changes and no modified
notification is emitted. -/
theorem unknown_kind_add_noop (s : PState) (l t : Nat) :
    (knownPrereqType t = false → createPrereqForType s t l = none)
    ∧ (knownPrereqType s.lastUsed = false → addChildOp s l = s) := by
  constructor
  · intro ht
    simp [createPrereqForType, ht]
  · intro ht
    simp [addChildOp, createPrereqForType, ht]

/-- State with an unknown last-used kind tag, for the C9 witness. -/
def unknownKindS : PState := { sampleS with lastUsed := 99 }

/-- Witness for C9 at the concrete state with kind tag 99. -/
theorem unknown_kind_add_noop_witness :
    createPrereqForType unknownKindS 99 0 = none
    ∧ addChildOp unknownKindS 0 = unknownKindS :=
  ⟨(unknown_kind_add_noop unknownKindS 0 99).1 (by decide),
   (unknown_kind_add_noop unknownKindS 0 99).2 (by decide)⟩

/-- C3: the Move operation (modelled from the spec, section 4.2) fails
with SelfParentingForbidden and mutates nothing whenever the ancestry
walk from the destination list reaches the moved node (that is, the
destination is the node itself or one of its descendants); when the
check passes, the node is removed from the child sequence of its current
parent and ends up at the requested position of the destination list,
clamped to the length of the destination child sequence. -/
theorem move_cycle_check_and_position (s : PState)
    (node newParent newPosition l : Nat) :
    (ancestryReaches s s.nextId newParent node = true →
      moveOp s node newParent newPosition = (s, some PrereqErr.SelfParentingForbidden))
    ∧ (ancestryReaches s s.nextId newParent node = false →
      s.parent node = some l → l ≠ newParent → node ∉ s.children newParent →
      (s.children l).Nodup →
      ((moveOp s node newParent newPosition).1.children newParent)[
          min newPosition (s.children newParent).length]? = some node
      ∧ node ∉ (moveOp s node newParent newPosition).1.children l
      ∧ (moveOp s node newParent newPosition).2 = none) := by
  constructor
  · intro hreach
    simp only [moveOp, hreach, if_true]
  · intro hreach hp hlne hnm hnd
    have hnp_ne : ¬newParent = l := fun e => hlne e.symm
    have h1 : (removeFirstNode s l node).children newParent = s.children newParent := by
      rw [removeFirstNode_children]
      dsimp only
      rw [if_neg hnp_ne]
    have h2 : (removeFirstNode s l node).children l = (s.children l).erase node := by
      rw [removeFirstNode_children]
      dsimp only
      rw [if_pos rfl]
    refine ⟨?_, ?_, ?_⟩
    · simp only [moveOp, hreach, Bool.false_eq_true, if_false, hp, adjustAndOrForList]
      rw [refreshChildren_children, refreshChildren_children]
      dsimp only
      rw [if_pos rfl, h1]
      exact getElem?_insertIdx_self node (min newPosition (s.children newParent).length)
        (s.children newParent) (min_le_right _ _)
    · simp only [moveOp, hreach, Bool.false_eq_true, if_false, hp, adjustAndOrForList]
      rw [refreshChildren_children, refreshChildren_children]
      dsimp only
      rw [if_neg hlne, h2]
      intro hmem2
      exact ((List.Nodup.mem_erase_iff hnd).mp hmem2).1 rfl
    · simp only [moveOp, hreach, Bool.false_eq_true, if_false, hp]

/-- Witness for C3 at the sample tree: moving list 1 into its own child
3 fails with SelfParentingForbidden, while moving leaf 3 from list 1 to
position 2 of root 0 (which has two children) appends it at index 2. -/
theorem move_cycle_check_and_position_witness :
    moveOp sampleS 1 3 0 = (sampleS, some PrereqErr.SelfParentingForbidden)
    ∧ (((moveOp sampleS 3 0 2).1.children 0)[min 2 (sampleS.children 0).length]? = some 3
       ∧ 3 ∉ (moveOp sampleS 3 0 2).1.children 1
       ∧ (moveOp sampleS 3 0 2).2 = none) :=
  ⟨(move_cycle_check_and_position sampleS 1 3 0 0).1 (by decide),
   (move_cycle_check_and_position sampleS 3 0 2 1).2 (by decide) (by decide) (by decide)
     (by decide) (by decide)⟩

theorem indexFunc_lt_length (p : Nat → Bool) (cs : List Nat) (i : Nat)
    (h : indexFunc p cs = some i) : i < cs.length := by
  induction cs generalizing i with
  | nil => simp [indexFunc] at h
  | cons a as ih =>
    simp only [indexFunc] at h
    by_cases ha : p a
    · rw [if_pos ha] at h
      obtain rfl := Option.some.inj h
      simp
    · rw [if_neg ha] at h
      rcases Option.map_eq_some'.mp h with ⟨j, hj, rfl⟩
      exact Nat.succ_lt_succ (ih j hj)

/-- C10: the hit-location drop handler turns the locations list into the
original with the dragged location deleted at its index i and reinserted
at the drop index, decremented by one when i is smaller than the drop
index; consequently the result is a permutation of the original list
and the relative order of all other locations is preserved. -/
theorem dragDrop_reorders (locs : List Nat) (loc dragInsert : Nat)
    (hmem : loc ∈ locs) (hj : dragInsert ≤ locs.length) :
    dataDragDropLocations locs loc dragInsert =
      List.insertIdx
        (if List.indexOf loc locs < dragInsert then dragInsert - 1 else dragInsert) loc
        (locs.erase loc)
    ∧ (dataDragDropLocations locs loc dragInsert).Perm locs
    ∧ (dataDragDropLocations locs loc dragInsert).filter (fun m => !(m == loc))
        = locs.filter (fun m => !(m == loc)) := by
  have hidx : indexFunc (fun m => m == loc) locs = some (List.indexOf loc locs) :=
    indexFunc_eq_indexOf_of_mem loc locs hmem
  have heq : dataDragDropLocations locs loc dragInsert =
      List.insertIdx
        (if List.indexOf loc locs < dragInsert then dragInsert - 1 else dragInsert) loc
        (locs.erase loc) := by
    simp only [dataDragDropLocations, hidx]
    rw [eraseIdx_eq_erase_of_indexFunc loc locs (List.indexOf loc locs) hidx]
  have hlen : (locs.erase loc).length = locs.length - 1 := List.length_erase_of_mem hmem
  have hipos : List.indexOf loc locs < locs.length :=
    indexFunc_lt_length (fun m => m == loc) locs (List.indexOf loc locs) hidx
  have hjle : (if List.indexOf loc locs < dragInsert then dragInsert - 1 else dragInsert)
      ≤ (locs.erase loc).length := by
    rw [hlen]
    split
    · omega
    · omega
  refine ⟨heq, ?_, ?_⟩
  · rw [heq]
    exact (List.perm_insertIdx loc (locs.erase loc) hjle).trans
      (List.perm_cons_erase hmem).symm
  · rw [heq, filter_insertIdx_neg (fun m => !(m == loc)) loc (by simp) _ _ hjle]
    exact filter_erase_neg (fun m => !(m == loc)) loc (by simp) locs

/-- Witness for C10 at a concrete drag: location 11 of [10, 11, 12] is
dropped below the last row (drop index 3). -/
theorem dragDrop_reorders_witness :
    dataDragDropLocations [10, 11, 12] 11 3 =
      List.insertIdx
        (if List.indexOf 11 [10, 11, 12] < 3 then 3 - 1 else 3) 11
        (List.erase [10, 11, 12] 11)
    ∧ (dataDragDropLocations [10, 11, 12] 11 3).Perm [10, 11, 12]
    ∧ (dataDragDropLocations [10, 11, 12] 11 3).filter (fun m => !(m == 11))
        = List.filter (fun m => !(m == 11)) [10, 11, 12] :=
  dragDrop_reorders [10, 11, 12] 11 3 (by decide) (by decide)
